import Mathlib

/-!
Shallow embedding of `internal/provider/resource_cloudflare_teams_rules.go`
from the `terraform-provider-cloudflare` repository.

Modelling conventions:
* Go `int64` arithmetic is modelled on `ℤ` with an explicit two's-complement
  wrap (`wrap64`) at every operation where Go can overflow; Go's `%` on
  integers is `Int.tmod` and `/` is `Int.tdiv` (truncated semantics).
* Go `uint64` values are modelled as `ℕ`; the `uint64 ↔ int64` casts are
  `toUInt64` / `uint64ToInt64`.
* `hashCodeString` lives outside this package; it is abstracted as a
  parameter `hashCodeString : String → ℕ` (it returns a non-negative `int`).
* `time.Duration` is an `int64` nanosecond count, modelled as `ℤ`;
  `Duration.String` and `time.ParseDuration` are stdlib functions abstracted
  as parameters `durToString : ℤ → String` and
  `parseDuration : String → Option ℤ` (`none` models a parse error).
* Go `interface{}` values crossing the Terraform attribute boundary are the
  inductive `TFValue`; a failed (single-valued) type assertion is a Go
  panic, modelled as `Except.error`; comma-ok assertions are `Option`.
* `fmt` verbs: `%s` is plain splicing, `%q` on the strings appearing here is
  modelled as surrounding double quotes (`goQuote`), `%w` splices the
  wrapped error's message.
-/

/-- Two's-complement wrap of an unbounded integer into the `int64` range. -/
def wrap64 (n : ℤ) : ℤ := (n + 2 ^ 63) % 2 ^ 64 - 2 ^ 63

/-- Go conversion `uint64(x)` applied to an `int64` value. -/
def toUInt64 (n : ℤ) : ℕ := (n % 2 ^ 64).toNat

/-- Go conversion `int64(x)` applied to a `uint64` value. -/
def uint64ToInt64 (n : ℕ) : ℤ := wrap64 n

/-- The constant `rulePrecedenceFactor int64 = 1000`. -/
def rulePrecedenceFactor : ℤ := 1000

/-- Embedding of `providerToApiRulePrecedence`:
`provided*rulePrecedenceFactor + int64(hashCodeString(ruleName))%rulePrecedenceFactor`,
with `int64` wrapping at the multiplication and the addition. -/
def providerToApiRulePrecedence (hashCodeString : String → ℕ)
    (provided : ℤ) (ruleName : String) : ℤ :=
  wrap64 (wrap64 (provided * rulePrecedenceFactor)
    + Int.tmod (hashCodeString ruleName) rulePrecedenceFactor)

/-- Embedding of `apiToProviderRulePrecedence`:
`(int64(apiPrecedence) - int64(hashCodeString(ruleName))%rulePrecedenceFactor) / rulePrecedenceFactor`
(`uint64 → int64` reinterpretation, wrapping subtraction, truncated division). -/
def apiToProviderRulePrecedence (hashCodeString : String → ℕ)
    (apiPrecedence : ℕ) (ruleName : String) : ℤ :=
  Int.tdiv
    (wrap64 (uint64ToInt64 apiPrecedence
      - Int.tmod (hashCodeString ruleName) rulePrecedenceFactor))
    rulePrecedenceFactor

/-- The precedence-encoding formula exactly as the spec words it
(`provided*factor + hash(name)%factor`), over unbounded integers with Go's
truncated remainder; used to compare the source function against the spec. -/
def specProviderToApiRulePrecedence (hashCodeString : String → ℕ)
    (provided : ℤ) (ruleName : String) : ℤ :=
  provided * rulePrecedenceFactor
    + Int.tmod (hashCodeString ruleName) rulePrecedenceFactor

/-- Does the character list start with the given pattern. -/
def charsStartWith : List Char → List Char → Bool
  | [], _ => true
  | _ :: _, [] => false
  | p :: ps, c :: cs => p == c && charsStartWith ps cs

/-- Does the pattern occur as a contiguous run inside the character list. -/
def charsContain (pat : List Char) : List Char → Bool
  | [] => pat.isEmpty
  | c :: cs => charsStartWith pat (c :: cs) || charsContain pat cs

/-- Go `strings.Contains(s, sub)` on the characters of the two strings. -/
def goStringsContains (s sub : String) : Bool := charsContain sub.data s.data

/-- Model of `fmt`'s `%q` for the plain identifiers appearing here:
surround with double quotes. -/
def goQuote (s : String) : String := "\"" ++ s ++ "\""

/-- Split a character list at the first occurrence of `sep`; `none` when
`sep` does not occur. -/
def splitN2Char (sep : Char) : List Char → Option (List Char × List Char)
  | [] => none
  | c :: cs =>
    if c = sep then some ([], cs)
    else (splitN2Char sep cs).map (fun p => (c :: p.1, p.2))

/-- Go `strings.SplitN(s, "/", 2)`: `[s]` when `s` has no slash, otherwise
the part before the first slash and the whole remainder. -/
def goSplitN2Slash (s : String) : List String :=
  match splitN2Char '/' s.data with
  | none => [s]
  | some p => [String.mk p.1, String.mk p.2]

/-- Characters of Go `strings.Split(s, ",")`: the comma-separated runs
(at least one, possibly empty, run). -/
def splitOnComma : List Char → List (List Char)
  | [] => [[]]
  | c :: cs =>
    if c = ',' then [] :: splitOnComma cs
    else
      match splitOnComma cs with
      | [] => [[c]]
      | h :: t => (c :: h) :: t

/-- Characters of Go `strings.Join(l, ",")`. -/
def joinComma : List (List Char) → List Char
  | [] => []
  | [x] => x
  | x :: y :: t => x ++ ',' :: joinComma (y :: t)

/-- Go `strings.Split(s, ",")`. -/
def goSplitComma (s : String) : List String :=
  (splitOnComma s.data).map String.mk

/-- Go `strings.Join(l, ",")`. -/
def goJoinComma (l : List String) : String :=
  String.mk (joinComma (l.map String.data))

/-- Go panic message used for every failed single-valued type assertion. -/
def interfaceConversionMsg : String := "interface conversion"

/-- Go `interface{}` values that cross the Terraform attribute boundary in
this file.  `strList` models a Go `[]string` value (which is *not* a
`[]interface{}` for type-assertion purposes), `list` a `[]interface{}`
(a nil slice is `.list []`), `map` a `map[string]interface{}` and `null`
the untyped nil interface. -/
inductive TFValue where
  | null : TFValue
  | bool : Bool → TFValue
  | str : String → TFValue
  | int : ℤ → TFValue
  | strList : List String → TFValue
  | list : List TFValue → TFValue
  | map : List (String × TFValue) → TFValue

/-- Go type assertion `v.([]interface{})`; panics on any other dynamic type. -/
def TFValue.asList : TFValue → Except String (List TFValue)
  | .list l => .ok l
  | _ => .error interfaceConversionMsg

/-- Go type assertion `v.(map[string]interface{})`. -/
def TFValue.asMap : TFValue → Except String (List (String × TFValue))
  | .map m => .ok m
  | _ => .error interfaceConversionMsg

/-- Go type assertion `v.(bool)`. -/
def TFValue.asBool : TFValue → Except String Bool
  | .bool b => .ok b
  | _ => .error interfaceConversionMsg

/-- Go type assertion `v.(string)`. -/
def TFValue.asStr : TFValue → Except String String
  | .str s => .ok s
  | _ => .error interfaceConversionMsg

/-- Go type assertion `v.(int)`. -/
def TFValue.asInt : TFValue → Except String ℤ
  | .int n => .ok n
  | _ => .error interfaceConversionMsg

/-- Go comma-ok type assertion `v, ok := x.(string)`. -/
def TFValue.asStrOk : TFValue → Option String
  | .str s => some s
  | _ => none

/-- Go map indexing `m[k]` on a `map[string]interface{}`: the untyped nil
interface when the key is absent. -/
def lookupTF (m : List (String × TFValue)) (k : String) : TFValue :=
  match m.find? (fun p => p.1 == k) with
  | some p => p.2
  | none => .null

/-- `cloudflare.TeamsL4OverrideSettings`. -/
structure TeamsL4OverrideSettings where
  ip : String
  port : ℤ
  deriving DecidableEq

/-- `cloudflare.TeamsBISOAdminControlSettings`. -/
structure TeamsBISOAdminControlSettings where
  disablePrinting : Bool
  disableCopyPaste : Bool
  disableDownload : Bool
  disableUpload : Bool
  disableKeyboard : Bool
  deriving DecidableEq

/-- `cloudflare.TeamsCheckSessionSettings`; `duration` is the wrapped
`time.Duration` nanosecond count. -/
structure TeamsCheckSessionSettings where
  enforce : Bool
  duration : ℤ
  deriving DecidableEq

/-- `cloudflare.TeamsRuleSettings`.  Pointer-valued sub-settings are
`Option`; `addHeaders` is the `http.Header` (`none` models a nil map). -/
structure TeamsRuleSettings where
  blockPageEnabled : Bool
  blockReason : String
  overrideIPs : List String
  overrideHost : String
  l4Override : Option TeamsL4OverrideSettings
  bisoAdminControls : Option TeamsBISOAdminControlSettings
  checkSession : Option TeamsCheckSessionSettings
  addHeaders : Option (List (String × List String))
  insecureDisableDNSSECValidation : Bool
  deriving DecidableEq

/-- The Go zero value of `cloudflare.TeamsRuleSettings`. -/
def zeroTeamsRuleSettings : TeamsRuleSettings where
  blockPageEnabled := false
  blockReason := ""
  overrideIPs := []
  overrideHost := ""
  l4Override := none
  bisoAdminControls := none
  checkSession := none
  addHeaders := none
  insecureDisableDNSSECValidation := false

/-- `cloudflare.TeamsRule` (`Precedence` and `Version` are `uint64`). -/
structure TeamsRule where
  id : String
  name : String
  description : String
  precedence : ℕ
  enabled : Bool
  action : String
  filters : List String
  traffic : String
  identity : String
  devicePosture : String
  version : ℕ
  ruleSettings : TeamsRuleSettings
  deriving DecidableEq

/-- Embedding of `flattenTeamsL4Override` (a nil pointer flattens to a nil
`[]interface{}`). -/
def flattenTeamsL4Override : Option TeamsL4OverrideSettings → TFValue
  | none => .list []
  | some settings => .list [.map [("ip", .str settings.ip), ("port", .int settings.port)]]

/-- Embedding of `inflateTeamsL4Override`. -/
def inflateTeamsL4Override (settings : TFValue) :
    Except String (Option TeamsL4OverrideSettings) := do
  let settingsList ← settings.asList
  if settingsList.length ≠ 1 then
    return none
  else
    let settingsMap ← (settingsList.headD .null).asMap
    let ip ← (lookupTF settingsMap "ip").asStr
    let port ← (lookupTF settingsMap "port").asInt
    return some { ip := ip, port := port }

/-- Embedding of `flattenTeamsRuleBisoAdminControls`. -/
def flattenTeamsRuleBisoAdminControls :
    Option TeamsBISOAdminControlSettings → TFValue
  | none => .list []
  | some settings => .list [.map [
      ("disable_printing", .bool settings.disablePrinting),
      ("disable_copy_paste", .bool settings.disableCopyPaste),
      ("disable_download", .bool settings.disableDownload),
      ("disable_upload", .bool settings.disableUpload),
      ("disable_keyboard", .bool settings.disableKeyboard)]]

/-- Embedding of `inflateTeamsRuleBisoAdminControls`. -/
def inflateTeamsRuleBisoAdminControls (settings : TFValue) :
    Except String (Option TeamsBISOAdminControlSettings) := do
  let settingsList ← settings.asList
  if settingsList.length ≠ 1 then
    return none
  else
    let settingsMap ← (settingsList.headD .null).asMap
    let disablePrinting ← (lookupTF settingsMap "disable_printing").asBool
    let disableCopyPaste ← (lookupTF settingsMap "disable_copy_paste").asBool
    let disableDownload ← (lookupTF settingsMap "disable_download").asBool
    let disableUpload ← (lookupTF settingsMap "disable_upload").asBool
    let disableKeyboard ← (lookupTF settingsMap "disable_keyboard").asBool
    return some {
      disablePrinting := disablePrinting
      disableCopyPaste := disableCopyPaste
      disableDownload := disableDownload
      disableUpload := disableUpload
      disableKeyboard := disableKeyboard }

/-- Embedding of `flattenTeamsCheckSessionSettings`; `durToString` is
`time.Duration.String`. -/
def flattenTeamsCheckSessionSettings (durToString : ℤ → String) :
    Option TeamsCheckSessionSettings → TFValue
  | none => .list []
  | some settings => .list [.map [
      ("enforce", .bool settings.enforce),
      ("duration", .str (durToString settings.duration))]]

/-- Embedding of `inflateTeamsCheckSessionSettings`; `parseDuration` is
`time.ParseDuration` (`none` models a parse error). -/
def inflateTeamsCheckSessionSettings (parseDuration : String → Option ℤ)
    (settings : TFValue) : Except String (Option TeamsCheckSessionSettings) := do
  let settingsList ← settings.asList
  if settingsList.length ≠ 1 then
    return none
  else
    let settingsMap ← (settingsList.headD .null).asMap
    let enforce ← (lookupTF settingsMap "enforce").asBool
    let durationString ← (lookupTF settingsMap "duration").asStr
    match parseDuration durationString with
    | none => return none
    | some dur => return some { enforce := enforce, duration := dur }

/-- Embedding of `inflateTeamsAddHeaders`: each string-valued entry is split
on commas; non-string entries are skipped; the result is always a non-nil
`http.Header`. -/
def inflateTeamsAddHeaders (settings : TFValue) :
    Except String (List (String × List String)) := do
  let settingsMap ← settings.asMap
  return settingsMap.filterMap
    (fun p => (p.2.asStrOk).map (fun v => (p.1, goSplitComma v)))

/-- Embedding of `flattenTeamsAddHeaders`: a nil header flattens to the
untyped nil interface, otherwise each value list is comma-joined. -/
def flattenTeamsAddHeaders : Option (List (String × List String)) → TFValue
  | none => .null
  | some settings => .map (settings.map (fun p => (p.1, .str (goJoinComma p.2))))

/-- Embedding of `flattenTeamsRuleSettings` (always a one-element list;
note that `override_ips` holds the Go `[]string` value itself). -/
def flattenTeamsRuleSettings (durToString : ℤ → String)
    (settings : TeamsRuleSettings) : List TFValue :=
  [.map [
    ("block_page_enabled", .bool settings.blockPageEnabled),
    ("block_page_reason", .str settings.blockReason),
    ("override_ips", .strList settings.overrideIPs),
    ("override_host", .str settings.overrideHost),
    ("l4override", flattenTeamsL4Override settings.l4Override),
    ("biso_admin_controls", flattenTeamsRuleBisoAdminControls settings.bisoAdminControls),
    ("check_session", flattenTeamsCheckSessionSettings durToString settings.checkSession),
    ("add_headers", flattenTeamsAddHeaders settings.addHeaders),
    ("insecure_disable_dnssec_validation", .bool settings.insecureDisableDNSSECValidation)]]

/-- Embedding of `inflateTeamsRuleSettings`.  The nested inflate helpers are
applied to the re-wrapped result of the call-site type assertions, exactly
as in the source. -/
def inflateTeamsRuleSettings (parseDuration : String → Option ℤ)
    (settings : TFValue) : Except String (Option TeamsRuleSettings) := do
  let settingsList ← settings.asList
  if settingsList.length ≠ 1 then
    return none
  else
    let settingsMap ← (settingsList.headD .null).asMap
    let enabled ← (lookupTF settingsMap "block_page_enabled").asBool
    let reason ← (lookupTF settingsMap "block_page_reason").asStr
    let overrideIPsRaw ← (lookupTF settingsMap "override_ips").asList
    let overrideIPs ← overrideIPsRaw.mapM TFValue.asStr
    let overrideHost ← (lookupTF settingsMap "override_host").asStr
    let l4List ← (lookupTF settingsMap "l4override").asList
    let l4Override ← inflateTeamsL4Override (.list l4List)
    let bisoList ← (lookupTF settingsMap "biso_admin_controls").asList
    let bisoAdminControls ← inflateTeamsRuleBisoAdminControls (.list bisoList)
    let checkSessionList ← (lookupTF settingsMap "check_session").asList
    let checkSessionSettings ← inflateTeamsCheckSessionSettings parseDuration (.list checkSessionList)
    let addHeadersMap ← (lookupTF settingsMap "add_headers").asMap
    let addHeaders ← inflateTeamsAddHeaders (.map addHeadersMap)
    let insecureDisableDNSSECValidation ←
      (lookupTF settingsMap "insecure_disable_dnssec_validation").asBool
    return some {
      blockPageEnabled := enabled
      blockReason := reason
      overrideIPs := overrideIPs
      overrideHost := overrideHost
      l4Override := l4Override
      bisoAdminControls := bisoAdminControls
      checkSession := checkSessionSettings
      addHeaders := some addHeaders
      insecureDisableDNSSECValidation := insecureDisableDNSSECValidation }

/-- Tag recording one call made to the external Cloudflare client. -/
inductive ClientCall where
  | rule : ClientCall
  | createRule : ClientCall
  | updateRule : ClientCall
  | deleteRule : ClientCall
  deriving DecidableEq

/-- The slice of the `cloudflare.API` client used by this resource; each
method either returns a value or an error (whose message is the `String`). -/
structure TeamsClient where
  teamsRule : String → String → Except String TeamsRule
  teamsCreateRule : String → TeamsRule → Except String TeamsRule
  teamsUpdateRule : String → String → TeamsRule → Except String TeamsRule
  teamsDeleteRule : String → String → Except String Unit

/-- The `schema.ResourceData` state of a `cloudflare_teams_rule` resource:
its ID plus the typed attributes this resource reads and writes
(`precedence` and `version` are the provider-side `int` attributes,
`ruleSettings` the raw `rule_settings` attribute value). -/
structure ResourceData where
  id : String
  accountID : String
  name : String
  description : String
  precedence : ℤ
  enabled : Bool
  action : String
  filters : List String
  traffic : String
  identity : String
  devicePosture : String
  version : ℤ
  ruleSettings : TFValue

/-- Embedding of `resourceCloudflareTeamsRuleRead`.  The result is the
updated resource data, the diagnostics (as their messages) and the list of
client calls made.  A client error containing `"invalid rule id"` clears
the ID and yields no diagnostics; any other error is wrapped and returned;
on success every attribute is re-set from the fetched rule (the `d.Set`
calls themselves cannot fail on this schema and are modelled as direct
field updates). -/
def resourceCloudflareTeamsRuleRead (hashCodeString : String → ℕ)
    (durToString : ℤ → String) (client : TeamsClient) (d : ResourceData) :
    ResourceData × List String × List ClientCall :=
  match client.teamsRule d.accountID d.id with
  | .error e =>
    if goStringsContains e "invalid rule id" then
      ({ d with id := "" }, [], [.rule])
    else
      (d, ["error finding Teams Rule " ++ goQuote d.id ++ ": " ++ e], [.rule])
  | .ok rule =>
    ({ d with
        name := rule.name
        description := rule.description
        precedence := apiToProviderRulePrecedence hashCodeString rule.precedence rule.name
        enabled := rule.enabled
        action := rule.action
        filters := rule.filters
        traffic := rule.traffic
        identity := rule.identity
        devicePosture := rule.devicePosture
        version := rule.version
        ruleSettings := .list (flattenTeamsRuleSettings durToString rule.ruleSettings) },
      [], [.rule])

/-- The `cloudflare.TeamsRule` struct literal built identically by Create
(with empty ID) and Update (with the current ID): settings are applied only
when the inflate result is non-nil, otherwise the zero value remains. -/
def mkTeamsRule (hashCodeString : String → ℕ) (id : String)
    (d : ResourceData) (settings : Option TeamsRuleSettings) : TeamsRule where
  id := id
  name := d.name
  description := d.description
  precedence := toUInt64 (providerToApiRulePrecedence hashCodeString d.precedence d.name)
  enabled := d.enabled
  action := d.action
  filters := d.filters
  traffic := d.traffic
  identity := d.identity
  devicePosture := d.devicePosture
  version := toUInt64 d.version
  ruleSettings := settings.getD zeroTeamsRuleSettings

/-- Embedding of `resourceCloudflareTeamsRuleCreate`.  An `Except.error`
models a Go panic inside `inflateTeamsRuleSettings`; otherwise the result
is the final resource data, diagnostics, and client calls made. -/
def resourceCloudflareTeamsRuleCreate (hashCodeString : String → ℕ)
    (durToString : ℤ → String) (parseDuration : String → Option ℤ)
    (client : TeamsClient) (d : ResourceData) :
    Except String (ResourceData × List String × List ClientCall) :=
  match inflateTeamsRuleSettings parseDuration d.ruleSettings with
  | .error e => .error e
  | .ok settings =>
    match client.teamsCreateRule d.accountID (mkTeamsRule hashCodeString "" d settings) with
    | .error e =>
      .ok (d, ["error creating Teams rule for account " ++ goQuote d.accountID ++ ": " ++ e],
        [.createRule])
    | .ok rule =>
      let r := resourceCloudflareTeamsRuleRead hashCodeString durToString client
        { d with id := rule.id }
      .ok (r.1, r.2.1, .createRule :: r.2.2)

/-- Embedding of `resourceCloudflareTeamsRuleUpdate`. -/
def resourceCloudflareTeamsRuleUpdate (hashCodeString : String → ℕ)
    (durToString : ℤ → String) (parseDuration : String → Option ℤ)
    (client : TeamsClient) (d : ResourceData) :
    Except String (ResourceData × List String × List ClientCall) :=
  match inflateTeamsRuleSettings parseDuration d.ruleSettings with
  | .error e => .error e
  | .ok settings =>
    let teamsRule := mkTeamsRule hashCodeString d.id d settings
    match client.teamsUpdateRule d.accountID teamsRule.id teamsRule with
    | .error e =>
      .ok (d, ["error updating Teams rule for account " ++ goQuote d.accountID ++ ": " ++ e],
        [.updateRule])
    | .ok updatedTeamsRule =>
      if updatedTeamsRule.id = "" then
        .ok (d, ["failed to find Teams Rule ID in update response; resource was empty"],
          [.updateRule])
      else
        let r := resourceCloudflareTeamsRuleRead hashCodeString durToString client d
        .ok (r.1, r.2.1, .updateRule :: r.2.2)

/-- Embedding of `resourceCloudflareTeamsRuleDelete`. -/
def resourceCloudflareTeamsRuleDelete (hashCodeString : String → ℕ)
    (durToString : ℤ → String) (client : TeamsClient) (d : ResourceData) :
    ResourceData × List String × List ClientCall :=
  match client.teamsDeleteRule d.accountID d.id with
  | .error e =>
    (d, ["error deleting Teams Rule for account " ++ goQuote d.accountID ++ ": " ++ e],
      [.deleteRule])
  | .ok _ =>
    let r := resourceCloudflareTeamsRuleRead hashCodeString durToString client d
    (r.1, r.2.1, .deleteRule :: r.2.2)

/-- Embedding of `resourceCloudflareTeamsRuleImport`: split the import ID at
the first slash, set `account_id` and the ID, run a read (whose diagnostics
are discarded but whose state mutations are kept), and return the single
resource data. -/
def resourceCloudflareTeamsRuleImport (hashCodeString : String → ℕ)
    (durToString : ℤ → String) (client : TeamsClient) (d : ResourceData) :
    Except String (List ResourceData) :=
  let attributes := goSplitN2Slash d.id
  if attributes.length ≠ 2 then
    .error ("invalid id (" ++ goQuote d.id
      ++ ") specified, should be in format \"accountID/teamsRuleID\"")
  else
    let accountID := attributes.headD ""
    let teamsRuleID := (attributes.drop 1).headD ""
    let d1 := { d with accountID := accountID, id := teamsRuleID }
    let r := resourceCloudflareTeamsRuleRead hashCodeString durToString client d1
    .ok [r.1]

/-- Modelled from the spec: `resourceCloudflareTeamsRuleSchema` is defined
elsewhere in the repository (not among the provided sources); the spec only
records that each adapter begins with a schema definition, so the schema is
modelled as a marker value whose content is not interpreted. -/
structure ProviderSchema where
  schemaName : String
  deriving DecidableEq

/-- Modelled from the spec: the schema of the `cloudflare_teams_rule`
resource; its attribute structure is outside the provided sources. -/
def resourceCloudflareTeamsRuleSchema : ProviderSchema :=
  { schemaName := "cloudflare_teams_rule" }

/-- The `schema.Resource` shape: the schema plus the CRUD context functions
and the importer's state function. -/
structure Resource where
  schema : ProviderSchema
  readContext : (String → ℕ) → (ℤ → String) → TeamsClient → ResourceData →
    ResourceData × List String × List ClientCall
  updateContext : (String → ℕ) → (ℤ → String) → (String → Option ℤ) →
    TeamsClient → ResourceData →
    Except String (ResourceData × List String × List ClientCall)
  createContext : (String → ℕ) → (ℤ → String) → (String → Option ℤ) →
    TeamsClient → ResourceData →
    Except String (ResourceData × List String × List ClientCall)
  deleteContext : (String → ℕ) → (ℤ → String) → TeamsClient → ResourceData →
    ResourceData × List String × List ClientCall
  importerStateContext : (String → ℕ) → (ℤ → String) → TeamsClient →
    ResourceData → Except String (List ResourceData)

/-- Embedding of `resourceCloudflareTeamsRule`: the resource wiring. -/
def resourceCloudflareTeamsRule : Resource where
  schema := resourceCloudflareTeamsRuleSchema
  readContext := resourceCloudflareTeamsRuleRead
  updateContext := resourceCloudflareTeamsRuleUpdate
  createContext := resourceCloudflareTeamsRuleCreate
  deleteContext := resourceCloudflareTeamsRuleDelete
  importerStateContext := resourceCloudflareTeamsRuleImport

/-- A constant hash function used to instantiate witnesses. -/
def hcs0 : String → ℕ := fun _ => 1234

/-- A constant `Duration.String` model used to instantiate witnesses. -/
def dts0 : ℤ → String := fun _ => "0s"

/-- A `time.ParseDuration` model that always fails, for witnesses. -/
def pd0 : String → Option ℤ := fun _ => none

/-- A concrete rule returned by the sample clients. -/
def sampleRule : TeamsRule where
  id := "rid"
  name := "n"
  description := ""
  precedence := 12034
  enabled := true
  action := "block"
  filters := []
  traffic := ""
  identity := ""
  devicePosture := ""
  version := 0
  ruleSettings := zeroTeamsRuleSettings

/-- A client whose calls all succeed. -/
def clientOK : TeamsClient where
  teamsRule := fun _ _ => .ok sampleRule
  teamsCreateRule := fun _ _ => .ok sampleRule
  teamsUpdateRule := fun _ _ _ => .ok sampleRule
  teamsDeleteRule := fun _ _ => .ok ()

/-- A client whose calls all fail with a generic message. -/
def clientBoom : TeamsClient where
  teamsRule := fun _ _ => .error "boom"
  teamsCreateRule := fun _ _ => .error "boom"
  teamsUpdateRule := fun _ _ _ => .error "boom"
  teamsDeleteRule := fun _ _ => .error "boom"

/-- A client whose read fails with the `invalid rule id` sentinel message. -/
def clientInvalidId : TeamsClient where
  teamsRule := fun _ _ => .error "invalid rule id: not found"
  teamsCreateRule := fun _ _ => .ok sampleRule
  teamsUpdateRule := fun _ _ _ => .ok sampleRule
  teamsDeleteRule := fun _ _ => .ok ()

/-- A concrete resource state used to instantiate witnesses. -/
def d0 : ResourceData where
  id := "r1"
  accountID := "acc"
  name := "n"
  description := ""
  precedence := 5
  enabled := true
  action := "allow"
  filters := []
  traffic := ""
  identity := ""
  devicePosture := ""
  version := 0
  ruleSettings := .list []

/-- The sample state with a two-part import ID. -/
def dImp0 : ResourceData := { d0 with id := "acc/rule" }

/-- `wrap64` is the identity on the `int64` range. -/
theorem wrap64_eq_self {n : ℤ} (h1 : -(2 ^ 63) ≤ n) (h2 : n < 2 ^ 63) :
    wrap64 n = n := by
  unfold wrap64
  have h3 : (0 : ℤ) ≤ n + 2 ^ 63 := by linarith
  have h4 : n + 2 ^ 63 < 2 ^ 64 := by
    have h64 : (2 : ℤ) ^ 64 = 2 ^ 63 + 2 ^ 63 := by norm_num
    linarith
  rw [Int.emod_eq_of_lt h3 h4]
  ring

/-- Every branch of the read function performs exactly the one client call. -/
theorem read_trace_eq (hashCodeString : String → ℕ) (durToString : ℤ → String)
    (client : TeamsClient) (d : ResourceData) :
    (resourceCloudflareTeamsRuleRead hashCodeString durToString client d).2.2
      = [ClientCall.rule] := by
  unfold resourceCloudflareTeamsRuleRead
  cases client.teamsRule d.accountID d.id with
  | error e =>
    by_cases h : goStringsContains e "invalid rule id" = true <;> simp [h]
  | ok rule => rfl

/-- The read function never changes the `account_id` attribute. -/
theorem read_accountID_eq (hashCodeString : String → ℕ) (durToString : ℤ → String)
    (client : TeamsClient) (d : ResourceData) :
    (resourceCloudflareTeamsRuleRead hashCodeString durToString client d).1.accountID
      = d.accountID := by
  unfold resourceCloudflareTeamsRuleRead
  cases client.teamsRule d.accountID d.id with
  | error e =>
    by_cases h : goStringsContains e "invalid rule id" = true <;> simp [h]
  | ok rule => rfl

/-- `splitOnComma` always yields at least one run. -/
theorem splitOnComma_ne_nil (l : List Char) : splitOnComma l ≠ [] := by
  induction l with
  | nil => simp [splitOnComma]
  | cons c cs ih =>
    unfold splitOnComma
    split
    · simp
    · cases h : splitOnComma cs with
      | nil => simp
      | cons hh tt => simp

/-- Comma-joining the comma-split runs restores the original characters. -/
theorem joinComma_splitOnComma (l : List Char) :
    joinComma (splitOnComma l) = l := by
  induction l with
  | nil => rfl
  | cons c cs ih =>
    unfold splitOnComma
    split
    · rename_i hc
      cases h : splitOnComma cs with
      | nil => exact absurd h (splitOnComma_ne_nil cs)
      | cons hh tt =>
        rw [h] at ih
        simp [joinComma, ← ih, hc]
    · rename_i hc
      cases h : splitOnComma cs with
      | nil => exact absurd h (splitOnComma_ne_nil cs)
      | cons hh tt =>
        rw [h] at ih
        cases tt with
        | nil =>
          simp [joinComma] at ih ⊢
          simp [ih]
        | cons t1 ts =>
          simp [joinComma] at ih ⊢
          simp [ih]

/-- Go's comma join undoes Go's comma split on any string. -/
theorem goJoinComma_goSplitComma (s : String) :
    goJoinComma (goSplitComma s) = s := by
  unfold goJoinComma goSplitComma
  rw [List.map_map]
  have hmap : (String.data ∘ String.mk) = id := rfl
  rw [hmap, List.map_id, joinComma_splitOnComma]

/-- When a pattern does not occur, splitting at it yields nothing. -/
theorem splitN2Char_eq_none {sep : Char} {l : List Char}
    (h : charsContain [sep] l = false) : splitN2Char sep l = none := by
  induction l with
  | nil => rfl
  | cons c cs ih =>
    unfold charsContain charsStartWith at h
    simp only [Bool.or_eq_false_iff, Bool.and_eq_false_iff] at h
    obtain ⟨h1, h2⟩ := h
    unfold splitN2Char
    have hcne : c ≠ sep := by
      intro hcs
      rcases h1 with h1 | h1
      · rw [hcs] at h1; simp at h1
      · simp [charsStartWith] at h1
    rw [if_neg hcne, ih h2]
    rfl

/-- Splitting at the first separator occurrence. -/
theorem splitN2Char_append {sep : Char} (a b : List Char) (ha : sep ∉ a) :
    splitN2Char sep (a ++ sep :: b) = some (a, b) := by
  induction a with
  | nil => simp [splitN2Char]
  | cons c cs ih =>
    have hc : c ≠ sep := by
      intro h
      exact ha (by simp [h])
    have hcs : sep ∉ cs := fun h => ha (List.mem_cons_of_mem _ h)
    simp only [List.cons_append]
    unfold splitN2Char
    rw [if_neg hc, ih hcs]
    rfl

/-- Claim C1: precedence encoding round-trips through decoding: for every
rule name and every non-negative provided precedence whose encoding
`p*1000 + hash%1000` fits in a signed 64-bit integer,
`apiToProviderRulePrecedence (providerToApiRulePrecedence p name) name = p`,
with `hashCodeString` an arbitrary function into non-negative machine
integers (the `uint64` cast sitting between the two functions in the code
is `toUInt64`). -/
theorem precedence_roundtrip (hashCodeString : String → ℕ) (p : ℤ) (name : String)
    (hh : (hashCodeString name : ℤ) < 2 ^ 63) (hp : 0 ≤ p)
    (hfit : p * rulePrecedenceFactor
      + Int.tmod (hashCodeString name) rulePrecedenceFactor < 2 ^ 63) :
    apiToProviderRulePrecedence hashCodeString
      (toUInt64 (providerToApiRulePrecedence hashCodeString p name)) name = p := by
  have hcast : (0 : ℤ) ≤ (hashCodeString name : ℤ) := Int.natCast_nonneg _
  have hr0 : 0 ≤ Int.tmod (hashCodeString name) rulePrecedenceFactor :=
    Int.tmod_nonneg _ hcast
  have hr1 : Int.tmod (hashCodeString name) rulePrecedenceFactor < rulePrecedenceFactor :=
    Int.tmod_lt_of_pos _ (by norm_num [rulePrecedenceFactor])
  have hm0 : 0 ≤ p * rulePrecedenceFactor :=
    mul_nonneg hp (by norm_num [rulePrecedenceFactor])
  have hm1 : p * rulePrecedenceFactor < 2 ^ 63 :=
    lt_of_le_of_lt (le_add_of_nonneg_right hr0) hfit
  have hv0 : 0 ≤ p * rulePrecedenceFactor
      + Int.tmod (hashCodeString name) rulePrecedenceFactor := add_nonneg hm0 hr0
  have hlt64 : p * rulePrecedenceFactor
      + Int.tmod (hashCodeString name) rulePrecedenceFactor < 2 ^ 64 := by
    have h2 : (2 : ℤ) ^ 63 < 2 ^ 64 := by norm_num
    linarith
  have e1 : providerToApiRulePrecedence hashCodeString p name
      = p * rulePrecedenceFactor
        + Int.tmod (hashCodeString name) rulePrecedenceFactor := by
    unfold providerToApiRulePrecedence
    rw [wrap64_eq_self (by linarith) hm1, wrap64_eq_self (by linarith) hfit]
  rw [e1]
  unfold apiToProviderRulePrecedence uint64ToInt64 toUInt64
  rw [Int.emod_eq_of_lt hv0 hlt64, Int.toNat_of_nonneg hv0]
  rw [wrap64_eq_self
    (n := p * rulePrecedenceFactor
      + Int.tmod (hashCodeString name) rulePrecedenceFactor)
    (by linarith) (by linarith)]
  have hsub : p * rulePrecedenceFactor
      + Int.tmod (hashCodeString name) rulePrecedenceFactor
      - Int.tmod (hashCodeString name) rulePrecedenceFactor
      = p * rulePrecedenceFactor := by ring
  rw [hsub, wrap64_eq_self (by linarith) hm1]
  exact Int.mul_tdiv_cancel p (by norm_num [rulePrecedenceFactor])

/-- Witness for C1 at the hash constant 1234, precedence 5 and name `x`. -/
theorem precedence_roundtrip_witness :
    (hcs0 "x" : ℤ) < 2 ^ 63 ∧ (0 : ℤ) ≤ 5 ∧
    (5 : ℤ) * rulePrecedenceFactor
      + Int.tmod (hcs0 "x") rulePrecedenceFactor < 2 ^ 63 ∧
    apiToProviderRulePrecedence hcs0
      (toUInt64 (providerToApiRulePrecedence hcs0 5 "x")) "x" = 5 :=
  ⟨by decide, by decide, by decide,
    precedence_roundtrip hcs0 5 "x" (by decide) (by decide) (by decide)⟩

/-- Claim C2 (amended): `providerToApiRulePrecedence` agrees with the spec
formula `provided*factor + hash(name)%factor` (factor 1000, truncated
remainder) for every provided precedence whose scaled value and encoded
value stay inside the signed 64-bit range; outside that range the Go
arithmetic wraps and the equality fails. -/
theorem providerToApi_matches_spec (hashCodeString : String → ℕ) (p : ℤ)
    (name : String)
    (hlo : -(2 ^ 63) ≤ p * rulePrecedenceFactor)
    (hfit : p * rulePrecedenceFactor
      + Int.tmod (hashCodeString name) rulePrecedenceFactor < 2 ^ 63) :
    providerToApiRulePrecedence hashCodeString p name
      = specProviderToApiRulePrecedence hashCodeString p name := by
  have hcast : (0 : ℤ) ≤ (hashCodeString name : ℤ) := Int.natCast_nonneg _
  have hr0 : 0 ≤ Int.tmod (hashCodeString name) rulePrecedenceFactor :=
    Int.tmod_nonneg _ hcast
  have hm1 : p * rulePrecedenceFactor < 2 ^ 63 :=
    lt_of_le_of_lt (le_add_of_nonneg_right hr0) hfit
  unfold providerToApiRulePrecedence specProviderToApiRulePrecedence
  rw [wrap64_eq_self hlo hm1, wrap64_eq_self (by linarith) hfit]

/-- Witness for the amended C2 at precedence 5, hash constant 1234. -/
theorem providerToApi_matches_spec_witness :
    -((2 : ℤ) ^ 63) ≤ (5 : ℤ) * rulePrecedenceFactor ∧
    (5 : ℤ) * rulePrecedenceFactor
      + Int.tmod (hcs0 "x") rulePrecedenceFactor < 2 ^ 63 ∧
    providerToApiRulePrecedence hcs0 5 "x"
      = specProviderToApiRulePrecedence hcs0 5 "x" :=
  ⟨by decide, by decide, providerToApi_matches_spec hcs0 5 "x" (by decide) (by decide)⟩

/-- Counterexample to C2 as stated: at the valid `int64` precedence `2^62`
(hash constant 0) the Go computation wraps to 0 while the spec formula
yields `2^62 * 1000`. -/
theorem providerToApi_overflow_cex :
    providerToApiRulePrecedence (fun _ => 0) (2 ^ 62) "x"
      ≠ specProviderToApiRulePrecedence (fun _ => 0) (2 ^ 62) "x" := by
  decide

/-- Claim C3: the read function distinguishes client errors by the
`invalid rule id` sentinel substring: a matching error clears the resource
ID and yields no diagnostics; any other error leaves the state unchanged
and yields exactly the diagnostic wrapping the original error message with
context. -/
theorem read_error_handling (hashCodeString : String → ℕ)
    (durToString : ℤ → String) (client : TeamsClient) (d : ResourceData)
    (e : String) (he : client.teamsRule d.accountID d.id = .error e) :
    (goStringsContains e "invalid rule id" = true →
      resourceCloudflareTeamsRuleRead hashCodeString durToString client d
        = ({ d with id := "" }, [], [ClientCall.rule]))
    ∧ (goStringsContains e "invalid rule id" = false →
      resourceCloudflareTeamsRuleRead hashCodeString durToString client d
        = (d, ["error finding Teams Rule " ++ goQuote d.id ++ ": " ++ e],
            [ClientCall.rule])) := by
  constructor <;> intro h <;>
    unfold resourceCloudflareTeamsRuleRead <;> rw [he] <;> simp [h]

/-- Witness for C3: a `boom` error is wrapped into the single diagnostic and
leaves the state untouched. -/
theorem read_error_handling_witness :
    resourceCloudflareTeamsRuleRead hcs0 dts0 clientBoom d0
      = (d0, ["error finding Teams Rule " ++ goQuote d0.id ++ ": " ++ "boom"],
          [ClientCall.rule]) :=
  (read_error_handling hcs0 dts0 clientBoom d0 "boom" rfl).2 (by decide)

/-- Claim C4 (amended): composing `flattenTeamsRuleSettings` directly with
`inflateTeamsRuleSettings` never round-trips: for every settings value the
inflate side's `.([]interface{})` type assertion on the `override_ips`
entry panics, because the flatten side stores the Go `[]string` value
itself there.  (The pair is inverse only across Terraform's schema
conversion layer, which is outside this repository.) -/
theorem inflate_flatten_panics (parseDuration : String → Option ℤ)
    (durToString : ℤ → String) (s : TeamsRuleSettings) :
    inflateTeamsRuleSettings parseDuration
        (.list (flattenTeamsRuleSettings durToString s))
      = .error interfaceConversionMsg := rfl

/-- Counterexample to C4 as stated: at the zero settings value the direct
composition is a type-assertion panic, not a successful round-trip. -/
theorem inflate_flatten_cex :
    inflateTeamsRuleSettings pd0
        (.list (flattenTeamsRuleSettings dts0 zeroTeamsRuleSettings))
      ≠ Except.ok (some zeroTeamsRuleSettings) := by
  intro h
  have h2 : (Except.error interfaceConversionMsg :
      Except String (Option TeamsRuleSettings))
      = Except.ok (some zeroTeamsRuleSettings) := h
  exact Except.noConfusion h2

/-- Claim C6: when the client's create call fails, Create returns exactly
the one diagnostic wrapping the error with the account ID as context,
leaves the resource data (in particular its ID) unchanged, and has made the
create call exactly once with no retry. -/
theorem create_failure_atomic (hashCodeString : String → ℕ)
    (durToString : ℤ → String) (parseDuration : String → Option ℤ)
    (client : TeamsClient) (d : ResourceData)
    (st : Option TeamsRuleSettings) (e : String)
    (hs : inflateTeamsRuleSettings parseDuration d.ruleSettings = .ok st)
    (he : client.teamsCreateRule d.accountID (mkTeamsRule hashCodeString "" d st)
      = .error e) :
    resourceCloudflareTeamsRuleCreate hashCodeString durToString parseDuration
        client d
      = .ok (d, ["error creating Teams rule for account "
            ++ goQuote d.accountID ++ ": " ++ e], [ClientCall.createRule]) := by
  unfold resourceCloudflareTeamsRuleCreate
  rw [hs]
  simp [he]

/-- Witness for C6 with the always-failing client. -/
theorem create_failure_atomic_witness :
    resourceCloudflareTeamsRuleCreate hcs0 dts0 pd0 clientBoom d0
      = .ok (d0, ["error creating Teams rule for account "
          ++ goQuote d0.accountID ++ ": " ++ "boom"], [ClientCall.createRule]) :=
  create_failure_atomic hcs0 dts0 pd0 clientBoom d0 none "boom" rfl rfl

/-- Claim C7: the resource adapter wires the schema, the four CRUD context
functions and the importer state function to exactly the functions of the
same names. -/
theorem resource_wiring :
    resourceCloudflareTeamsRule.schema = resourceCloudflareTeamsRuleSchema
    ∧ resourceCloudflareTeamsRule.readContext = resourceCloudflareTeamsRuleRead
    ∧ resourceCloudflareTeamsRule.updateContext = resourceCloudflareTeamsRuleUpdate
    ∧ resourceCloudflareTeamsRule.createContext = resourceCloudflareTeamsRuleCreate
    ∧ resourceCloudflareTeamsRule.deleteContext = resourceCloudflareTeamsRuleDelete
    ∧ resourceCloudflareTeamsRule.importerStateContext
        = resourceCloudflareTeamsRuleImport :=
  ⟨rfl, rfl, rfl, rfl, rfl, rfl⟩

/-- Binding a success just applies the continuation. -/
theorem except_bind_ok {α β : Type} (a : α) (f : α → Except String β) :
    (Except.ok a : Except String α) >>= f = f a := rfl

/-- In the `Except` monad `pure` is `ok`. -/
theorem except_pure_eq_ok {α : Type} (a : α) :
    (pure a : Except String α) = Except.ok a := rfl

/-- Claim C9: every inflate helper signals an absent nested block by
returning the nil pointer (`none`) whenever its input list does not have
exactly one element, and the check-session helper additionally returns nil
when the duration string fails to parse. -/
theorem inflate_nil_signalling :
    (∀ (parseDuration : String → Option ℤ) (l : List TFValue), l.length ≠ 1 →
      inflateTeamsRuleSettings parseDuration (.list l) = .ok none)
    ∧ (∀ l : List TFValue, l.length ≠ 1 →
      inflateTeamsRuleBisoAdminControls (.list l) = .ok none)
    ∧ (∀ (parseDuration : String → Option ℤ) (l : List TFValue), l.length ≠ 1 →
      inflateTeamsCheckSessionSettings parseDuration (.list l) = .ok none)
    ∧ (∀ l : List TFValue, l.length ≠ 1 →
      inflateTeamsL4Override (.list l) = .ok none)
    ∧ (∀ (parseDuration : String → Option ℤ) (m : List (String × TFValue))
        (b : Bool) (s : String),
      lookupTF m "enforce" = .bool b → lookupTF m "duration" = .str s →
      parseDuration s = none →
      inflateTeamsCheckSessionSettings parseDuration (.list [.map m]) = .ok none) := by
  refine ⟨?_, ?_, ?_, ?_, ?_⟩
  · intro pd l hl
    simp [inflateTeamsRuleSettings, TFValue.asList, except_bind_ok,
      except_pure_eq_ok, hl]
  · intro l hl
    simp [inflateTeamsRuleBisoAdminControls, TFValue.asList, except_bind_ok,
      except_pure_eq_ok, hl]
  · intro pd l hl
    simp [inflateTeamsCheckSessionSettings, TFValue.asList, except_bind_ok,
      except_pure_eq_ok, hl]
  · intro l hl
    simp [inflateTeamsL4Override, TFValue.asList, except_bind_ok,
      except_pure_eq_ok, hl]
  · intro pd m b s h1 h2 h3
    simp [inflateTeamsCheckSessionSettings, TFValue.asList, TFValue.asMap,
      except_bind_ok, except_pure_eq_ok, h1, h2, h3, TFValue.asBool,
      TFValue.asStr]

/-- Witness for C9: empty lists inflate to nil everywhere, and an
unparseable duration inflates to nil. -/
theorem inflate_nil_signalling_witness :
    inflateTeamsRuleSettings pd0 (.list []) = .ok none
    ∧ inflateTeamsRuleBisoAdminControls (.list []) = .ok none
    ∧ inflateTeamsCheckSessionSettings pd0 (.list []) = .ok none
    ∧ inflateTeamsL4Override (.list []) = .ok none
    ∧ inflateTeamsCheckSessionSettings pd0
        (.list [.map [("enforce", .bool true), ("duration", .str "xx")]])
      = .ok none :=
  ⟨inflate_nil_signalling.1 pd0 [] (by decide),
   inflate_nil_signalling.2.1 [] (by decide),
   inflate_nil_signalling.2.2.1 pd0 [] (by decide),
   inflate_nil_signalling.2.2.2.1 [] (by decide),
   inflate_nil_signalling.2.2.2.2 pd0 _ true "xx" rfl rfl rfl⟩

/-- Rebuilding the header map from the split headers restores the original
all-string attribute map, entry by entry. -/
theorem addHeaders_map_aux :
    ∀ m : List (String × TFValue), (∀ p ∈ m, ∃ s, p.2 = TFValue.str s) →
    ((m.filterMap
        (fun p => (p.2.asStrOk).map (fun v => (p.1, goSplitComma v)))).map
      (fun q => (q.1, TFValue.str (goJoinComma q.2)))) = m := by
  intro m
  induction m with
  | nil => intro _; rfl
  | cons p ps ih =>
    intro hstr
    obtain ⟨s, hs⟩ := hstr p (List.mem_cons_self _ _)
    have hrec := ih (fun q hq => hstr q (List.mem_cons_of_mem _ hq))
    have hhead : (fun q : String × TFValue =>
        Option.map (fun v => (q.1, goSplitComma v)) q.2.asStrOk) p
        = some (p.1, goSplitComma s) := by
      simp [hs, TFValue.asStrOk]
    rw [List.filterMap_cons_some
      (f := fun q : String × TFValue =>
        Option.map (fun v => (q.1, goSplitComma v)) q.2.asStrOk)
      (a := p) hhead]
    simp only [List.map_cons, goJoinComma_goSplitComma]
    rw [hrec, ← hs]

/-- Claim C10: the add-headers conversion is lossless map-to-header-to-map:
on any attribute map whose values are all strings, inflating (splitting
each value on commas) and flattening (re-joining with commas) restores the
original map. -/
theorem addHeaders_roundtrip (m : List (String × TFValue))
    (hstr : ∀ p ∈ m, ∃ s, p.2 = TFValue.str s) :
    ∃ h, inflateTeamsAddHeaders (.map m) = .ok h
      ∧ flattenTeamsAddHeaders (some h) = .map m := by
  refine ⟨_, rfl, ?_⟩
  show TFValue.map ((m.filterMap
      (fun p => (p.2.asStrOk).map (fun v => (p.1, goSplitComma v)))).map
      (fun q => (q.1, TFValue.str (goJoinComma q.2)))) = TFValue.map m
  rw [addHeaders_map_aux m hstr]

/-- Witness for C10 on a concrete two-entry header map. -/
theorem addHeaders_roundtrip_witness :
    ∃ h, inflateTeamsAddHeaders
          (.map [("a", .str "x,y"), ("b", .str "")]) = .ok h
      ∧ flattenTeamsAddHeaders (some h)
          = .map [("a", .str "x,y"), ("b", .str "")] :=
  addHeaders_roundtrip _ (by
    intro p hp
    rcases List.mem_cons.mp hp with rfl | hp2
    · exact ⟨"x,y", rfl⟩
    · rcases List.mem_cons.mp hp2 with rfl | h3
      · exact ⟨"", rfl⟩
      · cases h3)

/-- Claim C5 (amended): Read performs exactly one client call; Create,
Update and Delete each perform their single mutating client call exactly
once and, when it succeeds (for Update, also only when the response carries
a non-empty ID), exactly one follow-up read call through the read function
— one or two client calls per operation, never the single call the claim
states for the mutating operations' success paths. -/
theorem crud_call_counts (hashCodeString : String → ℕ)
    (durToString : ℤ → String) (parseDuration : String → Option ℤ)
    (client : TeamsClient) (d : ResourceData) :
    (resourceCloudflareTeamsRuleRead hashCodeString durToString client d).2.2
      = [ClientCall.rule]
    ∧ (∀ r, resourceCloudflareTeamsRuleCreate hashCodeString durToString
          parseDuration client d = .ok r →
        r.2.2 = [ClientCall.createRule]
        ∨ r.2.2 = [ClientCall.createRule, ClientCall.rule])
    ∧ (∀ r, resourceCloudflareTeamsRuleUpdate hashCodeString durToString
          parseDuration client d = .ok r →
        r.2.2 = [ClientCall.updateRule]
        ∨ r.2.2 = [ClientCall.updateRule, ClientCall.rule])
    ∧ ((resourceCloudflareTeamsRuleDelete hashCodeString durToString client d).2.2
          = [ClientCall.deleteRule]
       ∨ (resourceCloudflareTeamsRuleDelete hashCodeString durToString client d).2.2
          = [ClientCall.deleteRule, ClientCall.rule]) := by
  refine ⟨read_trace_eq _ _ _ _, ?_, ?_, ?_⟩
  · intro r hr
    unfold resourceCloudflareTeamsRuleCreate at hr
    cases hs : inflateTeamsRuleSettings parseDuration d.ruleSettings with
    | error e => rw [hs] at hr; exact Except.noConfusion hr
    | ok settings =>
      rw [hs] at hr
      dsimp only at hr
      cases hc : client.teamsCreateRule d.accountID
          (mkTeamsRule hashCodeString "" d settings) with
      | error e =>
        rw [hc] at hr
        dsimp only at hr
        injection hr with h
        subst h
        exact Or.inl rfl
      | ok rule =>
        rw [hc] at hr
        dsimp only at hr
        injection hr with h
        subst h
        exact Or.inr (by simp [read_trace_eq])
  · intro r hr
    unfold resourceCloudflareTeamsRuleUpdate at hr
    cases hs : inflateTeamsRuleSettings parseDuration d.ruleSettings with
    | error e => rw [hs] at hr; exact Except.noConfusion hr
    | ok settings =>
      rw [hs] at hr
      dsimp only at hr
      cases hc : client.teamsUpdateRule d.accountID
          (mkTeamsRule hashCodeString d.id d settings).id
          (mkTeamsRule hashCodeString d.id d settings) with
      | error e =>
        rw [hc] at hr
        dsimp only at hr
        injection hr with h
        subst h
        exact Or.inl rfl
      | ok updatedTeamsRule =>
        rw [hc] at hr
        dsimp only at hr
        by_cases hid : updatedTeamsRule.id = ""
        · rw [if_pos hid] at hr
          injection hr with h
          subst h
          exact Or.inl rfl
        · rw [if_neg hid] at hr
          injection hr with h
          subst h
          exact Or.inr (by simp [read_trace_eq])
  · unfold resourceCloudflareTeamsRuleDelete
    cases hc : client.teamsDeleteRule d.accountID d.id with
    | error e => exact Or.inl rfl
    | ok u => exact Or.inr (by simp [read_trace_eq])

/-- Witness for the amended C5: the always-succeeding client instantiates
every conjunct, with the successful Create path taking two calls. -/
theorem crud_call_counts_witness :
    (resourceCloudflareTeamsRuleRead hcs0 dts0 clientOK d0).2.2
      = [ClientCall.rule]
    ∧ ((resourceCloudflareTeamsRuleCreate hcs0 dts0 pd0 clientOK d0).map
          (fun r => r.2.2)
        = .ok [ClientCall.createRule, ClientCall.rule]) :=
  ⟨(crud_call_counts hcs0 dts0 pd0 clientOK d0).1,
    congrArg Except.ok
      (((crud_call_counts hcs0 dts0 pd0 clientOK d0).2.1 _ rfl).resolve_left
        (by decide))⟩

/-- Counterexample to C5 as stated: a successful Create against the
always-succeeding client delegates two client requests (the create and the
follow-up read), not exactly one. -/
theorem create_two_calls_cex :
    (resourceCloudflareTeamsRuleCreate hcs0 dts0 pd0 clientOK d0).map
        (fun r => r.2.2)
      = .ok [ClientCall.createRule, ClientCall.rule]
    ∧ [ClientCall.createRule, ClientCall.rule].length ≠ 1 := ⟨rfl, by decide⟩

/-- Claim C8 (amended): an import ID without a slash yields an error and
nothing is imported; an ID with a slash is split at the first slash only, the
prefix becomes `account_id` and the whole remainder becomes the resource
ID, and no error is returned — but the returned state's ID is cleared to
the empty string when the follow-up read inside Import observes a client
error containing `invalid rule id`. -/
theorem import_split_amended :
    (∀ (hashCodeString : String → ℕ) (durToString : ℤ → String)
        (client : TeamsClient) (d : ResourceData),
      goStringsContains d.id "/" = false →
      resourceCloudflareTeamsRuleImport hashCodeString durToString client d
        = .error ("invalid id (" ++ goQuote d.id
            ++ ") specified, should be in format \"accountID/teamsRuleID\""))
    ∧ (∀ (hashCodeString : String → ℕ) (durToString : ℤ → String)
        (client : TeamsClient) (d : ResourceData) (a b : List Char),
      '/' ∉ a → d.id = String.mk (a ++ '/' :: b) →
      ∃ d2, resourceCloudflareTeamsRuleImport hashCodeString durToString client d
          = .ok [d2]
        ∧ d2.accountID = String.mk a
        ∧ ((∃ e, client.teamsRule (String.mk a) (String.mk b) = .error e
              ∧ goStringsContains e "invalid rule id" = true ∧ d2.id = "")
           ∨ d2.id = String.mk b)) := by
  constructor
  · intro hashCodeString durToString client d hns
    have h1 : splitN2Char '/' d.id.data = none := splitN2Char_eq_none hns
    unfold resourceCloudflareTeamsRuleImport goSplitN2Slash
    rw [h1]
    simp
  · intro hashCodeString durToString client d a b ha hid
    have h2 : splitN2Char '/' d.id.data = some (a, b) := by
      rw [hid]
      exact splitN2Char_append a b ha
    refine ⟨(resourceCloudflareTeamsRuleRead hashCodeString durToString client
        { d with accountID := String.mk a, id := String.mk b }).1, ?_, ?_, ?_⟩
    · unfold resourceCloudflareTeamsRuleImport goSplitN2Slash
      rw [h2]
      simp
    · exact (read_accountID_eq hashCodeString durToString client _).trans rfl
    · cases hc : client.teamsRule (String.mk a) (String.mk b) with
      | error e =>
        by_cases hsent : goStringsContains e "invalid rule id" = true
        · refine Or.inl ⟨e, rfl, hsent, ?_⟩
          dsimp only [resourceCloudflareTeamsRuleRead]
          rw [hc]
          simp [hsent]
        · refine Or.inr ?_
          dsimp only [resourceCloudflareTeamsRuleRead]
          rw [hc]
          simp [hsent]
      | ok rule =>
        refine Or.inr ?_
        dsimp only [resourceCloudflareTeamsRuleRead]
        rw [hc]

/-- Witness for the amended C8: a slash-free ID errors; `acc/rule` against
the succeeding client imports with account `acc` and ID `rule`. -/
theorem import_split_amended_witness :
    resourceCloudflareTeamsRuleImport hcs0 dts0 clientOK
        { d0 with id := "noslash" }
      = .error ("invalid id (" ++ goQuote "noslash"
          ++ ") specified, should be in format \"accountID/teamsRuleID\"")
    ∧ ∃ d2, resourceCloudflareTeamsRuleImport hcs0 dts0 clientOK dImp0
          = .ok [d2]
        ∧ d2.accountID = String.mk ['a', 'c', 'c']
        ∧ ((∃ e, clientOK.teamsRule (String.mk ['a', 'c', 'c'])
                (String.mk ['r', 'u', 'l', 'e']) = .error e
              ∧ goStringsContains e "invalid rule id" = true ∧ d2.id = "")
           ∨ d2.id = String.mk ['r', 'u', 'l', 'e']) := by
  constructor
  · exact import_split_amended.1 hcs0 dts0 clientOK _ (by decide)
  · exact import_split_amended.2 hcs0 dts0 clientOK dImp0
      ['a', 'c', 'c'] ['r', 'u', 'l', 'e'] (by decide) rfl

/-- Counterexample to C8 as stated: importing `acc/rule` against a client
whose read fails with the `invalid rule id` sentinel returns a state whose
ID is empty, not the remainder `rule`. -/
theorem import_sentinel_cex :
    resourceCloudflareTeamsRuleImport hcs0 dts0 clientInvalidId dImp0
      = .ok [{ dImp0 with accountID := "acc", id := "" }]
    ∧ ({ dImp0 with accountID := "acc", id := "" } : ResourceData).id ≠ "rule" :=
  ⟨rfl, by decide⟩
